import Mathlib

/-!
Verification of the MintVM transaction-ledger and contract-address
derivation engine (`src/sqlite.rs`) against its specification.

The development shallowly embeds:
* the Keccak-256 hash (called by the source through `alloy::primitives::keccak256`),
* the address codec (`AddressSqlite` text formatting / parsing, which the source
  derives from alloy's `Display`/`FromStr`, and the `AddressSqliteList` blob codec),
* the CREATE2-style address derivation function registered as the SQLite scalar
  function `derive_contract_address`,
* the ledger store: the `transactions` / `contracts` schema, the
  `create_contract_trigger`, and the atomic `insert_transaction` pipeline.

Bytes are modelled as `Nat` (values < 256), byte strings as `List Nat`,
64-bit lanes as `Nat` reduced modulo `2 ^ 64`, and text as lists of ASCII codes.
-/

namespace MintVM

/-! ### Keccak-256 (semantics of `alloy::primitives::keccak256`) -/

/-- A 64-bit left rotation on a `Nat` lane reduced modulo `2 ^ 64`. -/
def rol64 (x n : Nat) : Nat :=
  ((x <<< n) ||| (x >>> (64 - n))) &&& (2 ^ 64 - 1)

/-- The 24 Keccak-f[1600] round constants. -/
def keccakRC : List Nat :=
  [0x0000000000000001, 0x0000000000008082, 0x800000000000808a, 0x8000000080008000,
   0x000000000000808b, 0x0000000080000001, 0x8000000080008081, 0x8000000000008009,
   0x000000000000008a, 0x0000000000000088, 0x0000000080008009, 0x000000008000000a,
   0x000000008000808b, 0x800000000000008b, 0x8000000000008089, 0x8000000000008003,
   0x8000000000008002, 0x8000000000000080, 0x000000000000800a, 0x800000008000000a,
   0x8000000080008081, 0x8000000000008080, 0x0000000080000001, 0x8000000080008008]

/-- The ρ-step rotation offsets, indexed by lane index `x + 5 * y`. -/
def rhoOffsets : List Nat :=
  List.flatten
    [[0, 1, 62, 28, 27],
     [36, 44, 6, 55, 20],
     [3, 10, 43, 25, 39],
     [41, 45, 15, 21, 8],
     [18, 2, 61, 56, 14]]

/-- Lane `(x, y)` of a 25-lane state. -/
def lane (s : List Nat) (x y : Nat) : Nat := s.getD (x + 5 * y) 0

/-- Keccak θ step. -/
def theta (s : List Nat) : List Nat :=
  let c := fun x => lane s x 0 ^^^ lane s x 1 ^^^ lane s x 2 ^^^ lane s x 3 ^^^ lane s x 4
  let d := fun x => c ((x + 4) % 5) ^^^ rol64 (c ((x + 1) % 5)) 1
  (List.range 25).map (fun i => s.getD i 0 ^^^ d (i % 5))

/-- Keccak ρ and π steps combined: the target lane `(x', y')` receives the
source lane `((x' + 3 * y') % 5, x')` rotated by its ρ offset. -/
def rhopi (s : List Nat) : List Nat :=
  (List.range 25).map (fun i =>
    let xt := i % 5
    let yt := i / 5
    let xs := (xt + 3 * yt) % 5
    let ys := xt
    rol64 (lane s xs ys) (rhoOffsets.getD (xs + 5 * ys) 0))

/-- Keccak χ step. -/
def chi (s : List Nat) : List Nat :=
  (List.range 25).map (fun i =>
    let x := i % 5
    let y := i / 5
    lane s x y ^^^ (((2 ^ 64 - 1) ^^^ lane s ((x + 1) % 5) y) &&& lane s ((x + 2) % 5) y))

/-- Keccak ι step: xor the round constant into lane `(0, 0)`. -/
def iota (rc : Nat) (s : List Nat) : List Nat :=
  match s with
  | [] => []
  | a :: rest => (a ^^^ rc) :: rest

/-- One Keccak-f round. -/
def keccakRound (s : List Nat) (rc : Nat) : List Nat := iota rc (chi (rhopi (theta s)))

/-- The full Keccak-f[1600] permutation (24 rounds). -/
def keccakF (s : List Nat) : List Nat := keccakRC.foldl keccakRound s

/-- Original-Keccak multi-rate padding (domain byte `0x01`) to a multiple of
the 136-byte rate. -/
def keccakPad (msg : List Nat) : List Nat :=
  let padLen := 136 - msg.length % 136
  if padLen = 1 then msg ++ [0x81]
  else msg ++ [0x01] ++ List.replicate (padLen - 2) 0 ++ [0x80]

/-- Split a byte string into 136-byte blocks (the input is already padded to an
exact multiple of 136). -/
def toBlocks (l : List Nat) : List (List Nat) :=
  (List.range (l.length / 136)).map (fun i => (l.drop (136 * i)).take 136)

/-- Interpret a 136-byte block as 17 little-endian 64-bit lanes. -/
def bytesToLanes (block : List Nat) : List Nat :=
  (List.range 17).map (fun i =>
    (List.range 8).foldl (fun acc j => acc ||| ((block.getD (8 * i + j) 0) <<< (8 * j))) 0)

/-- Absorb one 136-byte block into the sponge state. -/
def absorbBlock (st : List Nat) (block : List Nat) : List Nat :=
  let lanes := bytesToLanes block
  keccakF ((List.range 25).map (fun i => st.getD i 0 ^^^ lanes.getD i 0))

/-- Read the first `n` bytes of the state, little-endian within each lane. -/
def lanesToBytes (st : List Nat) (n : Nat) : List Nat :=
  (List.range n).map (fun i => (st.getD (i / 8) 0 >>> (8 * (i % 8))) &&& 0xff)

/-- Keccak-256 of a byte string: absorb all padded blocks into the zero state
and squeeze 32 bytes. -/
def keccak256 (msg : List Nat) : List Nat :=
  let st := (toBlocks (keccakPad msg)).foldl absorbBlock (List.replicate 25 0)
  lanesToBytes st 32

/-! ### Address codec

`AddressSqlite` wraps `alloy::primitives::Address` (20 bytes) and derives
`Display` / `FromStr` from it.  Alloy's `Display` emits the EIP-55 checksummed
hex form with a `0x` prefix; its `FromStr` hex-decodes after stripping an
optional `0x` prefix, case-insensitively, requiring exactly 40 hex digits.
Text is modelled as a list of ASCII codes. -/

/-- ASCII code of the lowercase hex digit for a nibble. -/
def hexCharLower (n : Nat) : Nat := if n < 10 then 48 + n else 87 + n

/-- The two lowercase hex characters of a byte, high nibble first. -/
def byteToHexChars (b : Nat) : List Nat := [hexCharLower (b / 16), hexCharLower (b % 16)]

/-- Lowercase hex encoding (no prefix) of a byte string. -/
def bytesHexLower (bs : List Nat) : List Nat := (bs.map byteToHexChars).flatten

/-- EIP-55 checksummed hex characters of a 20-byte address (no prefix): a
lowercase hex letter is uppercased exactly when the corresponding nibble of
`keccak256` of the lowercase hex ASCII string is at least 8. -/
def checksummed (addr : List Nat) : List Nat :=
  let lower := bytesHexLower addr
  let h := keccak256 lower
  (List.range lower.length).map (fun i =>
    let c := lower.getD i 0
    let nib := if i % 2 = 0 then h.getD (i / 2) 0 / 16 else h.getD (i / 2) 0 % 16
    if 97 ≤ c ∧ 8 ≤ nib then c - 32 else c)

/-- Embedding of `Display for AddressSqlite`: `0x` followed by the EIP-55 checksummed hex. -/
def formatAddress (addr : List Nat) : List Nat := 48 :: 120 :: checksummed addr

/-- Value of an ASCII hex digit, accepting both cases. -/
def hexDigitVal (c : Nat) : Option Nat :=
  if 48 ≤ c ∧ c ≤ 57 then some (c - 48)
  else if 97 ≤ c ∧ c ≤ 102 then some (c - 87)
  else if 65 ≤ c ∧ c ≤ 70 then some (c - 55)
  else none

/-- Decode an even-length ASCII hex string into bytes, failing on a non-hex
character or odd length. -/
def hexPairsDecode : List Nat → Option (List Nat)
  | [] => some []
  | [_] => none
  | c₁ :: c₂ :: rest =>
    match hexDigitVal c₁, hexDigitVal c₂, hexPairsDecode rest with
    | some hi, some lo, some tl => some ((16 * hi + lo) :: tl)
    | _, _, _ => none

/-- Strip a leading `0x` (ASCII `48, 120`) if present. -/
def strip0x (s : List Nat) : List Nat :=
  match s with
  | 48 :: 120 :: rest => rest
  | other => other

/-- Embedding of `FromStr for AddressSqlite`: strip an optional `0x` prefix, hex-decode
case-insensitively, and require exactly 20 decoded bytes. -/
def parseAddress (s : List Nat) : Option (List Nat) :=
  match hexPairsDecode (strip0x s) with
  | some bytes => if bytes.length = 20 then some bytes else none
  | none => none

/-- The one failure value `rusqlite::types::FromSqlError::InvalidType`, which
all blob-decoding paths of the source report. -/
inductive FromSqlError where
  | invalidType
deriving DecidableEq

/-- Embedding of `ToSql for AddressSqliteList`: the flat concatenation of the 20-byte
address encodings, built by successive extension as in the source loop. -/
def encodeAddressList (addrs : List (List Nat)) : List Nat :=
  addrs.foldl (fun acc a => acc ++ a) []

/-- Embedding of `chunks_exact(20)`: the complete 20-byte chunks of a byte string. -/
def chunksExact20 (l : List Nat) : List (List Nat) :=
  (List.range (l.length / 20)).map (fun i => (l.drop (20 * i)).take 20)

/-- Embedding of `FromSql for AddressSqliteList`: reject blobs whose length is not a
multiple of 20, else split into 20-byte addresses. -/
def decodeAddressList (bytes : List Nat) : Except FromSqlError (List (List Nat)) :=
  if bytes.length % 20 ≠ 0 then .error .invalidType
  else .ok (chunksExact20 bytes)

/-! ### Contract-address derivation (`derive_contract_address`) -/

/-- The fixed deployer `0x4000000000000000000000000000000000000000`. -/
def DEPLOYER : List Nat :=
  [0x40, 0, 0, 0, 0, 0, 0, 0, 0, 0, 0, 0, 0, 0, 0, 0, 0, 0, 0, 0]

/-- The fixed init code: 32 zero bytes (`hex::decode("00" * 32)`). -/
def INIT_CODE : List Nat := List.replicate 32 0

/-- Embedding of `i64::to_be_bytes`: the 8 big-endian bytes of the two's-complement
representation of a 64-bit integer. -/
def i64ToBeBytes (i : Int) : List Nat :=
  let n := (i % (2 : Int) ^ 64).toNat
  (List.range 8).map (fun k => (n >>> (8 * (7 - k))) &&& 0xff)

/-- The SQLite scalar function `derive_contract_address`, embedded from the
source: CREATE2-style derivation
`keccak256(0xff ++ deployer ++ salt ++ keccak256(init_code))[12..]` where the
salt is 32 bytes, zero except for the transaction id big-endian in its last
8 bytes. -/
def derive_contract_address (txId : Int) : List Nat :=
  let init_code_hash := keccak256 INIT_CODE
  let salt := List.replicate 24 0 ++ i64ToBeBytes txId
  let buffer := [0xff] ++ DEPLOYER ++ salt ++ init_code_hash
  (keccak256 buffer).drop 12

/-- The Address Derivation Function exactly as the specification words it
(§4.2): `keccak256(0xFF ++ deployerAddress ++ salt ++ keccak256(initCode))[12:32]`
with the salt a 32-byte zero-filled buffer carrying the id big-endian in
bytes 24..32.  Stated independently of the source definition so the two can
be compared. -/
def adfSpec (deployer : List Nat) (txId : Int) (initCode : List Nat) : List Nat :=
  let codeHash := keccak256 initCode
  let salt := (List.range 32).map (fun j => if 24 ≤ j then (i64ToBeBytes txId).getD (j - 24) 0 else 0)
  let preimage := 0xff :: (deployer ++ salt ++ codeHash)
  ((keccak256 preimage).drop 12).take 20

/-! ### Ledger store

The schema, trigger and insert pipeline of `initialize_db` /
`insert_transaction`.  A database state carries the committed rows of both
tables together with the `AUTOINCREMENT` counters (SQLite assigns
max-so-far + 1 and never reuses ids; a rolled-back insert also rolls the
counter back). -/

/-- The closed `TransactionType` enumeration. -/
inductive TransactionType where
  | CreateToken
  | AddTokenSigner
  | RemoveTokenSigner
  | SetDefaultTokenURI
  | SetTokenURIPerId
  | Mint
  | Transfer
  | Burn
  | Approve
  | SetApprovalForAll
deriving DecidableEq

/-- The `Transactions` record handed to `insert_transaction` (the caller-side
struct; its `id` field is not read by the insert). -/
structure Transactions where
  id : Int
  sender : List Nat
  transaction_type : TransactionType
  data : List Nat
  timestamp : Int
deriving DecidableEq

/-- A committed row of the `transactions` table.  The `data` column is a
nullable BLOB (no `NOT NULL` constraint in the schema). -/
structure TxRow where
  id : Int
  sender : List Nat
  transaction_type : TransactionType
  data : Option (List Nat)
  timestamp : Int
deriving DecidableEq

/-- A committed row of the `contracts` table. -/
structure ContractRow where
  id : Int
  address : List Nat
  signers : Option (List Nat)
  transaction_id : Int
deriving DecidableEq

/-- A committed database state. -/
structure DB where
  transactions : List TxRow
  contracts : List ContractRow
  nextTxId : Int
  nextContractId : Int
deriving DecidableEq

/-- Embedding of `initialize_db`: both tables empty, both `AUTOINCREMENT` counters at 1. -/
def initialize_db : DB := ⟨[], [], 1, 1⟩

/-- Which schema constraint a failed statement violated (SQLite reports the
failing constraint in `rusqlite::Error`). -/
inductive SqlConstraint where
  | contractsAddressUnique
  | contractsTransactionIdUnique
  | transactionsNotNull
deriving DecidableEq

/-- Embedding of `DatabaseError`: the source wraps every store failure of the insert
pipeline as `DatabaseError::SqliteError`. -/
inductive DatabaseError where
  | sqliteError (c : SqlConstraint)
deriving DecidableEq

/-- The SQL statement
`INSERT INTO transactions (sender, transaction_type, data, timestamp) VALUES (…)`
run against the schema of `initialize_db`, including the `AFTER INSERT`
trigger `create_contract_trigger`: `NOT NULL` columns reject NULL, the id is
auto-assigned, and when the inserted type is `CreateToken` the trigger inserts
`(derive_contract_address(NEW.id), NEW.sender, NEW.id)` into `contracts`,
whose `UNIQUE` constraints abort the whole statement on violation. -/
def sqlInsertTransaction (db : DB) (sender : Option (List Nat))
    (ttype : Option TransactionType) (dat : Option (List Nat)) (ts : Option Int) :
    Except DatabaseError DB :=
  match sender, ttype, ts with
  | some s, some ty, some t =>
    let newId := db.nextTxId
    let row : TxRow := ⟨newId, s, ty, dat, t⟩
    let db1 : DB := { db with transactions := db.transactions ++ [row], nextTxId := newId + 1 }
    if ty = TransactionType.CreateToken then
      let addr := derive_contract_address newId
      if db1.contracts.any (fun c => c.address == addr) then
        .error (.sqliteError .contractsAddressUnique)
      else if db1.contracts.any (fun c => c.transaction_id == newId) then
        .error (.sqliteError .contractsTransactionIdUnique)
      else
        .ok { db1 with
              contracts := db1.contracts ++ [⟨db1.nextContractId, addr, some s, newId⟩],
              nextContractId := db1.nextContractId + 1 }
    else .ok db1
  | _, _, _ => .error (.sqliteError .transactionsNotNull)

/-- Embedding of `insert_transaction`: one atomic unit of work.  The statement runs with all
four parameters bound from the (never-null) fields of the input record; on
success the unit of work commits, on any error it rolls back, leaving the
store exactly as before. -/
def insert_transaction (db : DB) (t : Transactions) : Option DatabaseError × DB :=
  match sqlInsertTransaction db (some t.sender) (some t.transaction_type)
      (some t.data) (some t.timestamp) with
  | .ok db2 => (none, db2)
  | .error e => (some e, db)

/-- Run a sequence of `insert_transaction` calls. -/
def runInserts (db : DB) : List Transactions → DB
  | [] => db
  | t :: ts => runInserts (insert_transaction db t).2 ts

/-- The ids assigned by the successful inserts of a run, in call order. -/
def runAssigned (db : DB) : List Transactions → List Int
  | [] => []
  | t :: ts =>
    match insert_transaction db t with
    | (none, db') => db.nextTxId :: runAssigned db' ts
    | (some _, db') => runAssigned db' ts

/-- A store state reachable from a fresh store by some insert sequence. -/
def Reachable (db : DB) : Prop := ∃ ts, db = runInserts initialize_db ts

/-- ASCII hex digit (either case). -/
def IsHexDigitAscii (c : Nat) : Prop :=
  (48 ≤ c ∧ c ≤ 57) ∨ (97 ≤ c ∧ c ≤ 102) ∨ (65 ≤ c ∧ c ≤ 70)

/-! ### General lemmas about the embedding -/

/-- The transaction row committed by a successful insert. -/
def newTxRow (db : DB) (t : Transactions) : TxRow :=
  ⟨db.nextTxId, t.sender, t.transaction_type, some t.data, t.timestamp⟩

/-- The contract row committed by the trigger for a `CreateToken` insert. -/
def newContractRow (db : DB) (t : Transactions) : ContractRow :=
  ⟨db.nextContractId, derive_contract_address db.nextTxId, some t.sender, db.nextTxId⟩

/-- The store state after a committed non-`CreateToken` insert. -/
def dbAfterPlain (db : DB) (t : Transactions) : DB :=
  { db with transactions := db.transactions ++ [newTxRow db t], nextTxId := db.nextTxId + 1 }

/-- The store state after a committed `CreateToken` insert. -/
def dbAfterCreate (db : DB) (t : Transactions) : DB :=
  { db with
    transactions := db.transactions ++ [newTxRow db t],
    contracts := db.contracts ++ [newContractRow db t],
    nextTxId := db.nextTxId + 1,
    nextContractId := db.nextContractId + 1 }

/-- The derived address would collide with a committed contract address. -/
def AddrCollision (db : DB) : Prop :=
  db.contracts.any (fun c => c.address == derive_contract_address db.nextTxId) = true

/-- The new transaction id would collide with a committed
`contracts.transaction_id`. -/
def TidCollision (db : DB) : Prop :=
  db.contracts.any (fun c => c.transaction_id == db.nextTxId) = true

instance (db : DB) : Decidable (AddrCollision db) := by unfold AddrCollision; infer_instance

instance (db : DB) : Decidable (TidCollision db) := by unfold TidCollision; infer_instance

/-- The strengthened store invariant carried through the induction for the
1:1 transaction/contract relationship. -/
structure Inv (db : DB) : Prop where
  txIdLt : ∀ tx ∈ db.transactions, tx.id < db.nextTxId
  txIdNodup : (db.transactions.map TxRow.id).Nodup
  cTidLt : ∀ c ∈ db.contracts, c.transaction_id < db.nextTxId
  cOrigin : ∀ c ∈ db.contracts, ∃ tx ∈ db.transactions,
    tx.id = c.transaction_id ∧ tx.transaction_type = TransactionType.CreateToken
  ctOne : ∀ tx ∈ db.transactions, tx.transaction_type = TransactionType.CreateToken →
    (db.contracts.filter (fun c => c.transaction_id == tx.id)).length = 1
  addrNodup : (db.contracts.map ContractRow.address).Nodup
  tidNodup : (db.contracts.map ContractRow.transaction_id).Nodup

/-- The `i`-th hex nibble of a byte string (high nibble of each byte first). -/
def nibbleAt (bytes : List Nat) (i : Nat) : Nat :=
  if i % 2 = 0 then bytes.getD (i / 2) 0 / 16 else bytes.getD (i / 2) 0 % 16

lemma keccak256_length (msg : List Nat) : (keccak256 msg).length = 32 := by
  simp [keccak256, lanesToBytes]

lemma salt_eq (txId : Int) :
    List.replicate 24 0 ++ i64ToBeBytes txId =
      (List.range 32).map (fun j => if 24 ≤ j then (i64ToBeBytes txId).getD (j - 24) 0 else 0) :=
  rfl

lemma insert_nonCreate (db : DB) (t : Transactions)
    (h : t.transaction_type ≠ TransactionType.CreateToken) :
    insert_transaction db t = (none, dbAfterPlain db t) := by
  simp only [insert_transaction, sqlInsertTransaction, if_neg h]
  rfl

lemma insert_create_ok (db : DB) (t : Transactions)
    (h : t.transaction_type = TransactionType.CreateToken)
    (h1 : ¬ AddrCollision db) (h2 : ¬ TidCollision db) :
    insert_transaction db t = (none, dbAfterCreate db t) := by
  have h1' : (db.contracts.any fun c => c.address == derive_contract_address db.nextTxId) = false := by
    simpa [AddrCollision] using h1
  have h2' : (db.contracts.any fun c => c.transaction_id == db.nextTxId) = false := by
    simpa [TidCollision] using h2
  simp only [insert_transaction, sqlInsertTransaction, if_pos h, h1', h2']
  rfl

lemma insert_create_dupAddr (db : DB) (t : Transactions)
    (h : t.transaction_type = TransactionType.CreateToken) (h1 : AddrCollision db) :
    insert_transaction db t = (some (.sqliteError .contractsAddressUnique), db) := by
  have h1' : (db.contracts.any fun c => c.address == derive_contract_address db.nextTxId) = true := h1
  simp only [insert_transaction, sqlInsertTransaction, if_pos h, h1']
  rfl

lemma insert_create_dupTid (db : DB) (t : Transactions)
    (h : t.transaction_type = TransactionType.CreateToken)
    (h1 : ¬ AddrCollision db) (h2 : TidCollision db) :
    insert_transaction db t = (some (.sqliteError .contractsTransactionIdUnique), db) := by
  have h1' : (db.contracts.any fun c => c.address == derive_contract_address db.nextTxId) = false := by
    simpa [AddrCollision] using h1
  have h2' : (db.contracts.any fun c => c.transaction_id == db.nextTxId) = true := h2
  simp only [insert_transaction, sqlInsertTransaction, if_pos h, h1', h2']
  rfl

lemma insert_error_rollback (db : DB) (t : Transactions) (e : DatabaseError)
    (h : (insert_transaction db t).1 = some e) : (insert_transaction db t).2 = db := by
  rcases hsql : sqlInsertTransaction db (some t.sender) (some t.transaction_type)
      (some t.data) (some t.timestamp) with e' | db2
  · rw [insert_transaction, hsql]
  · rw [insert_transaction, hsql] at h
    simp at h

set_option maxRecDepth 100000 in
/-- Validation of the Keccak-256 embedding against the standard test vector
for the empty message. -/
theorem keccak256_empty_vector : keccak256 [] =
    [0xc5, 0xd2, 0x46, 0x01, 0x86, 0xf7, 0x23, 0x3c, 0x92, 0x7e, 0x7d, 0xb2,
     0xdc, 0xc7, 0x03, 0xc0, 0xe5, 0x00, 0xb6, 0x53, 0xca, 0x82, 0x27, 0x3b,
     0x7b, 0xfa, 0xd8, 0x04, 0x5d, 0x85, 0xa4, 0x70] := by
  decide

/-- C1: for every transaction id, `derive_contract_address` returns
`keccak256(0xFF ++ deployerAddress ++ salt ++ keccak256(initCode))[12:32]`,
where the salt is a 32-byte zero-filled buffer with the id big-endian-encoded
into bytes 24..32, the preimage is exactly 85 bytes, and the result is the
last 20 bytes of the 32-byte hash. -/
theorem derive_matches_spec (txId : Int) :
    derive_contract_address txId = adfSpec DEPLOYER txId INIT_CODE ∧
    ([0xff] ++ DEPLOYER ++ (List.replicate 24 0 ++ i64ToBeBytes txId) ++
        keccak256 INIT_CODE).length = 85 ∧
    derive_contract_address txId =
      (keccak256 ([0xff] ++ DEPLOYER ++ (List.replicate 24 0 ++ i64ToBeBytes txId) ++
        keccak256 INIT_CODE)).drop 12 ∧
    (derive_contract_address txId).length = 20 := by
  refine ⟨?_, ?_, rfl, ?_⟩
  · show (keccak256 _).drop 12 = ((keccak256 _).drop 12).take 20
    rw [List.take_of_length_le]
    · rw [← salt_eq]
      rfl
    · simp [keccak256_length]
  · simp [DEPLOYER, i64ToBeBytes, keccak256_length]
  · simp [derive_contract_address, keccak256_length]

/-- C7: the Address Derivation Function is deterministic — invocations on
equal transaction ids (the deployer and init code being the fixed
configuration constants of the source) yield byte-identical addresses. -/
theorem derive_deterministic (i j : Int) (h : i = j) :
    derive_contract_address i = derive_contract_address j := by rw [h]

/-- Witness for C7 at transaction id 5. -/
theorem derive_deterministic_witness :
    derive_contract_address 5 = derive_contract_address 5 :=
  derive_deterministic 5 5 rfl

/-- C2: an `insert_transaction` call that fails leaves the store exactly as it
was (the unit of work rolls back), and a `CreateToken` insert whose derived
address collides with a committed contract address fails with the
`contracts.address` UNIQUE-constraint error (the spec's
`InsertError::DuplicateContractAddress`). -/
theorem insert_atomic_rollback (db : DB) (t : Transactions) :
    (∀ e, (insert_transaction db t).1 = some e → (insert_transaction db t).2 = db) ∧
    (t.transaction_type = TransactionType.CreateToken → AddrCollision db →
      insert_transaction db t =
        (some (DatabaseError.sqliteError SqlConstraint.contractsAddressUnique), db)) :=
  ⟨fun e h => insert_error_rollback db t e h,
   fun h hc => insert_create_dupAddr db t h hc⟩

/-- Witness for C2: a `CreateToken` insert into a store already holding a
contract at the address the new transaction id derives to fails with the
address-uniqueness error and leaves the store unchanged. -/
theorem insert_atomic_rollback_witness :
    insert_transaction ⟨[], [⟨1, derive_contract_address 2, none, 42⟩], 2, 2⟩
        ⟨0, List.replicate 20 0, TransactionType.CreateToken, [], 0⟩ =
      (some (DatabaseError.sqliteError SqlConstraint.contractsAddressUnique),
       ⟨[], [⟨1, derive_contract_address 2, none, 42⟩], 2, 2⟩) :=
  (insert_atomic_rollback _ _).2 rfl (by simp [AddrCollision])

lemma insert_cases (db : DB) (t : Transactions) :
    (insert_transaction db t = (none, dbAfterPlain db t) ∧
      t.transaction_type ≠ TransactionType.CreateToken) ∨
    (insert_transaction db t = (none, dbAfterCreate db t) ∧
      t.transaction_type = TransactionType.CreateToken ∧
      ¬ AddrCollision db ∧ ¬ TidCollision db) ∨
    insert_transaction db t =
      (some (DatabaseError.sqliteError SqlConstraint.contractsAddressUnique), db) ∨
    insert_transaction db t =
      (some (DatabaseError.sqliteError SqlConstraint.contractsTransactionIdUnique), db) := by
  by_cases hty : t.transaction_type = TransactionType.CreateToken
  · by_cases h1 : AddrCollision db
    · exact Or.inr (Or.inr (Or.inl (insert_create_dupAddr db t hty h1)))
    · by_cases h2 : TidCollision db
      · exact Or.inr (Or.inr (Or.inr (insert_create_dupTid db t hty h1 h2)))
      · exact Or.inr (Or.inl ⟨insert_create_ok db t hty h1 h2, hty, h1, h2⟩)
  · exact Or.inl ⟨insert_nonCreate db t hty, hty⟩

lemma insert_success_transactions (db : DB) (t : Transactions)
    (h : (insert_transaction db t).1 = none) :
    (insert_transaction db t).2.transactions = db.transactions ++ [newTxRow db t] := by
  rcases insert_cases db t with ⟨heq, _⟩ | ⟨heq, _, _, _⟩ | heq | heq
  · rw [heq]; rfl
  · rw [heq]; rfl
  · rw [heq] at h; cases h
  · rw [heq] at h; cases h

lemma insert_success_nextTxId (db : DB) (t : Transactions)
    (h : (insert_transaction db t).1 = none) :
    (insert_transaction db t).2.nextTxId = db.nextTxId + 1 := by
  rcases insert_cases db t with ⟨heq, _⟩ | ⟨heq, _, _, _⟩ | heq | heq
  · rw [heq]; rfl
  · rw [heq]; rfl
  · rw [heq] at h; cases h
  · rw [heq] at h; cases h

lemma insert_fresh_success (t : Transactions) :
    (insert_transaction initialize_db t).1 = none := by
  by_cases hty : t.transaction_type = TransactionType.CreateToken
  · have h1 : ¬ AddrCollision initialize_db := by simp [AddrCollision, initialize_db]
    have h2 : ¬ TidCollision initialize_db := by simp [TidCollision, initialize_db]
    rw [insert_create_ok _ _ hty h1 h2]
  · rw [insert_nonCreate _ _ hty]

lemma runAssigned_lb :
    ∀ (ts : List Transactions) (db : DB), ∀ i ∈ runAssigned db ts, db.nextTxId ≤ i := by
  intro ts
  induction ts with
  | nil => intro db i hi; simp [runAssigned] at hi
  | cons t ts ih =>
    intro db i hi
    rcases hres : insert_transaction db t with ⟨o, db'⟩
    cases o with
    | none =>
      simp only [runAssigned, hres] at hi
      rcases List.mem_cons.mp hi with h | h
      · exact le_of_eq h.symm
      · have hle := ih db' i h
        have hnext : db'.nextTxId = db.nextTxId + 1 := by
          have := insert_success_nextTxId db t (by rw [hres])
          rw [hres] at this
          exact this
        omega
    | some e =>
      simp only [runAssigned, hres] at hi
      have hdb : db' = db := by
        have := insert_error_rollback db t e (by rw [hres])
        rw [hres] at this
        exact this
      rw [hdb] at hi
      exact ih db i hi

lemma runAssigned_pairwise :
    ∀ (ts : List Transactions) (db : DB), (runAssigned db ts).Pairwise (· < ·) := by
  intro ts
  induction ts with
  | nil => intro db; simp [runAssigned]
  | cons t ts ih =>
    intro db
    rcases hres : insert_transaction db t with ⟨o, db'⟩
    cases o with
    | none =>
      simp only [runAssigned, hres]
      refine List.Pairwise.cons ?_ (ih db')
      intro j hj
      have hle := runAssigned_lb ts db' j hj
      have hnext : db'.nextTxId = db.nextTxId + 1 := by
        have := insert_success_nextTxId db t (by rw [hres])
        rw [hres] at this
        exact this
      omega
    | some e =>
      simp only [runAssigned, hres]
      exact ih db'

/-- C8: transaction ids are assigned by the store, positive, strictly
increasing across successive successful inserts (hence never reused), and the
first insert into a fresh store is assigned id 1. -/
theorem tx_id_assignment (ts : List Transactions) :
    (runAssigned initialize_db ts).Pairwise (· < ·) ∧
    (∀ i ∈ runAssigned initialize_db ts, 1 ≤ i) ∧
    (∀ t rest, ts = t :: rest →
      runAssigned initialize_db ts =
        1 :: runAssigned (insert_transaction initialize_db t).2 rest) := by
  refine ⟨runAssigned_pairwise ts initialize_db,
          fun i hi => runAssigned_lb ts initialize_db i hi, ?_⟩
  intro t rest hts
  subst hts
  rcases hres : insert_transaction initialize_db t with ⟨o, db'⟩
  have ho : o = none := by
    have := insert_fresh_success t
    rw [hres] at this
    exact this
  subst ho
  simp only [runAssigned, hres]
  rfl

/-- Witness for C8: two inserts into a fresh store are assigned ids `[1, 2]`
in strictly increasing order, the first one id 1. -/
theorem tx_id_assignment_witness :
    (runAssigned initialize_db
      [⟨0, List.replicate 20 0, TransactionType.Mint, [], 5⟩,
       ⟨0, List.replicate 20 0, TransactionType.Mint, [], 6⟩]).Pairwise (· < ·) ∧
    runAssigned initialize_db
      [⟨0, List.replicate 20 0, TransactionType.Mint, [], 5⟩,
       ⟨0, List.replicate 20 0, TransactionType.Mint, [], 6⟩] =
      1 :: runAssigned
        (insert_transaction initialize_db
          ⟨0, List.replicate 20 0, TransactionType.Mint, [], 5⟩).2
        [⟨0, List.replicate 20 0, TransactionType.Mint, [], 6⟩] :=
  ⟨(tx_id_assignment _).1, (tx_id_assignment _).2.2 _ _ rfl⟩

/-- C10: `insert_transaction` never reads the `id` field of its input record;
the committed row carries the store-assigned id and the input's `sender`,
`transaction_type`, `data` and `timestamp`. -/
theorem insert_ignores_input_id (db : DB) (t : Transactions) (v : Int) :
    insert_transaction db { t with id := v } = insert_transaction db t ∧
    ((insert_transaction db t).1 = none →
      (insert_transaction db t).2.transactions = db.transactions ++ [newTxRow db t]) :=
  ⟨rfl, insert_success_transactions db t⟩

/-- Witness for C10: inserting a `Burn` record with junk id 77 equals
inserting the same record with id 3, and the committed row of the latter is
the store-assigned one. -/
theorem insert_ignores_input_id_witness :
    insert_transaction initialize_db ⟨77, List.replicate 20 0, TransactionType.Burn, [1], 9⟩ =
      insert_transaction initialize_db ⟨3, List.replicate 20 0, TransactionType.Burn, [1], 9⟩ ∧
    (insert_transaction initialize_db
        ⟨3, List.replicate 20 0, TransactionType.Burn, [1], 9⟩).2.transactions =
      initialize_db.transactions ++
        [newTxRow initialize_db ⟨3, List.replicate 20 0, TransactionType.Burn, [1], 9⟩] :=
  ⟨(insert_ignores_input_id initialize_db
      ⟨3, List.replicate 20 0, TransactionType.Burn, [1], 9⟩ 77).1,
   (insert_ignores_input_id initialize_db
      ⟨3, List.replicate 20 0, TransactionType.Burn, [1], 9⟩ 77).2 rfl⟩

lemma decodeAddressList_single (l : List Nat) (h : l.length = 20) :
    decodeAddressList l = .ok [l] := by
  have hle : l.length ≤ 20 := h.le
  have hr : List.range 1 = [0] := rfl
  simp [decodeAddressList, chunksExact20, h, hr, List.take_of_length_le hle]

/-- C5: a committed insert creates a contract row iff the transaction's kind
is `CreateToken`; that row has the address derived (per the ADF) from the
newly assigned id, `transaction_id` equal to the newly assigned id, and a
`signers` blob that decodes to the one-element list `[tx.sender]`. -/
theorem contract_creation_iff (db : DB) (t : Transactions) (db' : DB)
    (h : insert_transaction db t = (none, db')) :
    (t.transaction_type = TransactionType.CreateToken →
      db'.contracts = db.contracts ++ [newContractRow db t] ∧
      (t.sender.length = 20 → decodeAddressList t.sender = .ok [t.sender])) ∧
    (t.transaction_type ≠ TransactionType.CreateToken → db'.contracts = db.contracts) := by
  rcases insert_cases db t with ⟨heq, hne⟩ | ⟨heq, hty, _, _⟩ | heq | heq
  · rw [h] at heq
    have hdb : db' = dbAfterPlain db t := congrArg Prod.snd heq
    subst hdb
    exact ⟨fun hc => absurd hc hne, fun _ => rfl⟩
  · rw [h] at heq
    have hdb : db' = dbAfterCreate db t := congrArg Prod.snd heq
    subst hdb
    exact ⟨fun _ => ⟨rfl, fun hlen => decodeAddressList_single t.sender hlen⟩,
           fun hne => absurd hty hne⟩
  · rw [h] at heq
    cases congrArg Prod.fst heq
  · rw [h] at heq
    cases congrArg Prod.fst heq

/-- Witness for C5: a fresh `CreateToken` insert commits exactly one contract
row, derived from id 1, with the sender as only signer. -/
theorem contract_creation_iff_witness :
    (dbAfterCreate initialize_db
        ⟨0, List.replicate 20 0, TransactionType.CreateToken, [48, 120], 1715136000⟩).contracts =
      initialize_db.contracts ++
        [newContractRow initialize_db
          ⟨0, List.replicate 20 0, TransactionType.CreateToken, [48, 120], 1715136000⟩] ∧
    decodeAddressList (List.replicate 20 0) = .ok [List.replicate 20 0] := by
  have h := (contract_creation_iff initialize_db
      ⟨0, List.replicate 20 0, TransactionType.CreateToken, [48, 120], 1715136000⟩
      (dbAfterCreate initialize_db
        ⟨0, List.replicate 20 0, TransactionType.CreateToken, [48, 120], 1715136000⟩)
      rfl).1 rfl
  exact ⟨h.1, h.2 (by simp)⟩

/-- C4 (amended): the input type of `insert_transaction` makes `data` always
present (a required, possibly empty, byte vector), every committed row stores
that payload non-null, and no data-presence validation or `MissingSignedData`
error exists: the only insert failures are the contract UNIQUE-constraint
violations, which roll the store back. -/
theorem insert_data_always_present (db : DB) (t : Transactions) :
    ((insert_transaction db t).1 = none →
      (insert_transaction db t).2.transactions = db.transactions ++
        [⟨db.nextTxId, t.sender, t.transaction_type, some t.data, t.timestamp⟩]) ∧
    (∀ e, (insert_transaction db t).1 = some e →
      (e = DatabaseError.sqliteError SqlConstraint.contractsAddressUnique ∨
       e = DatabaseError.sqliteError SqlConstraint.contractsTransactionIdUnique) ∧
      (insert_transaction db t).2 = db) := by
  refine ⟨insert_success_transactions db t, fun e he => ?_⟩
  rcases insert_cases db t with ⟨heq, _⟩ | ⟨heq, _, _, _⟩ | heq | heq
  · rw [heq] at he; cases he
  · rw [heq] at he; cases he
  · rw [heq] at he
    rw [heq]
    exact ⟨Or.inl (Option.some.inj he).symm, rfl⟩
  · rw [heq] at he
    rw [heq]
    exact ⟨Or.inr (Option.some.inj he).symm, rfl⟩

/-- Witness for C4's amended claim: a committed `Mint` insert stores the
(empty-capable but present) payload as a non-null blob. -/
theorem insert_data_always_present_witness :
    (insert_transaction initialize_db
        ⟨0, List.replicate 20 0, TransactionType.Mint, [], 7⟩).2.transactions =
      initialize_db.transactions ++
        [⟨1, List.replicate 20 0, TransactionType.Mint, some [], 7⟩] :=
  (insert_data_always_present initialize_db
    ⟨0, List.replicate 20 0, TransactionType.Mint, [], 7⟩).1 rfl

/-- Counterexample for C4: the `transactions.data` column has no `NOT NULL`
constraint and `insert_transaction` performs no data-presence validation, so
a raw insert with NULL `data` commits a row (there is no
`MissingSignedData` failure anywhere in the pipeline). -/
theorem insert_null_data_accepted :
    sqlInsertTransaction initialize_db (some (List.replicate 20 0))
        (some TransactionType.Mint) none (some 0) =
      .ok ⟨[⟨1, List.replicate 20 0, TransactionType.Mint, none, 0⟩], [], 2, 1⟩ :=
  rfl

end MintVM

namespace MintVM

lemma invFresh : Inv initialize_db := by
  constructor <;> simp [initialize_db]


lemma inv_dbAfterPlain (db : DB) (t : Transactions) (h : Inv db)
    (hne : t.transaction_type ≠ TransactionType.CreateToken) :
    Inv (dbAfterPlain db t) := by
  have htr : (dbAfterPlain db t).transactions = db.transactions ++ [newTxRow db t] := rfl
  have hnext : (dbAfterPlain db t).nextTxId = db.nextTxId + 1 := rfl
  have hctr : (dbAfterPlain db t).contracts = db.contracts := rfl
  have hnid : (newTxRow db t).id = db.nextTxId := rfl
  constructor
  · intro tx htx
    rw [htr] at htx
    rw [hnext]
    rcases List.mem_append.mp htx with h1 | h1
    · have := h.txIdLt tx h1
      omega
    · have heq := List.mem_singleton.mp h1
      subst heq
      rw [hnid]
      omega
  · rw [htr, List.map_append, List.nodup_append]
    refine ⟨h.txIdNodup, List.nodup_singleton _, ?_⟩
    intro a ha hb
    rcases List.mem_map.mp ha with ⟨tx, htx, rfl⟩
    have hlt := h.txIdLt tx htx
    have heq : tx.id = (newTxRow db t).id := List.mem_singleton.mp (by simpa using hb)
    rw [hnid] at heq
    omega
  · intro c hc
    rw [hctr] at hc
    rw [hnext]
    have := h.cTidLt c hc
    omega
  · intro c hc
    rw [hctr] at hc
    obtain ⟨tx, htx, h1, h2⟩ := h.cOrigin c hc
    exact ⟨tx, htr ▸ List.mem_append_left _ htx, h1, h2⟩
  · intro tx htx hty
    rw [htr] at htx
    rw [hctr]
    rcases List.mem_append.mp htx with h1 | h1
    · exact h.ctOne tx h1 hty
    · have heq := List.mem_singleton.mp h1
      subst heq
      exact absurd hty hne
  · rw [hctr]
    exact h.addrNodup
  · rw [hctr]
    exact h.tidNodup

lemma inv_dbAfterCreate (db : DB) (t : Transactions) (h : Inv db)
    (hty : t.transaction_type = TransactionType.CreateToken)
    (hna : ¬ AddrCollision db) (_hnt : ¬ TidCollision db) :
    Inv (dbAfterCreate db t) := by
  have htr : (dbAfterCreate db t).transactions = db.transactions ++ [newTxRow db t] := rfl
  have hnext : (dbAfterCreate db t).nextTxId = db.nextTxId + 1 := rfl
  have hctr : (dbAfterCreate db t).contracts = db.contracts ++ [newContractRow db t] := rfl
  have hnid : (newTxRow db t).id = db.nextTxId := rfl
  have hcid : (newContractRow db t).transaction_id = db.nextTxId := rfl
  have hcaddr : (newContractRow db t).address = derive_contract_address db.nextTxId := rfl
  have anyAddrFalse :
      ∀ c ∈ db.contracts, ¬ (c.address == derive_contract_address db.nextTxId) = true := by
    simpa [AddrCollision, List.any_eq_false] using hna
  constructor
  · intro tx htx
    rw [htr] at htx
    rw [hnext]
    rcases List.mem_append.mp htx with h1 | h1
    · have := h.txIdLt tx h1
      omega
    · have heq := List.mem_singleton.mp h1
      subst heq
      rw [hnid]
      omega
  · rw [htr, List.map_append, List.nodup_append]
    refine ⟨h.txIdNodup, List.nodup_singleton _, ?_⟩
    intro a ha hb
    rcases List.mem_map.mp ha with ⟨tx, htx, rfl⟩
    have hlt := h.txIdLt tx htx
    have heq : tx.id = (newTxRow db t).id := List.mem_singleton.mp (by simpa using hb)
    rw [hnid] at heq
    omega
  · intro c hc
    rw [hctr] at hc
    rw [hnext]
    rcases List.mem_append.mp hc with h1 | h1
    · have := h.cTidLt c h1
      omega
    · have heq := List.mem_singleton.mp h1
      subst heq
      rw [hcid]
      omega
  · intro c hc
    rw [hctr] at hc
    rcases List.mem_append.mp hc with h1 | h1
    · obtain ⟨tx, htx, h1', h2'⟩ := h.cOrigin c h1
      exact ⟨tx, htr ▸ List.mem_append_left _ htx, h1', h2'⟩
    · have heq := List.mem_singleton.mp h1
      subst heq
      refine ⟨newTxRow db t, htr ▸ List.mem_append_right _ (List.mem_singleton_self _), ?_, hty⟩
      rw [hnid, hcid]
  · intro tx htx htyc
    rw [htr] at htx
    rw [hctr, List.filter_append]
    rcases List.mem_append.mp htx with h1 | h1
    · have hlt := h.txIdLt tx h1
      have hne' : ((newContractRow db t).transaction_id == tx.id) = false := by
        refine beq_eq_false_iff_ne.mpr ?_
        rw [hcid]
        omega
      have hone : List.filter (fun c => c.transaction_id == tx.id) [newContractRow db t] = [] := by
        simp [hne']
      rw [hone, List.append_nil]
      exact h.ctOne tx h1 htyc
    · have heq := List.mem_singleton.mp h1
      subst heq
      have hnil : db.contracts.filter
          (fun c => c.transaction_id == (newTxRow db t).id) = [] := by
        rw [List.filter_eq_nil_iff]
        intro c hc hbeq
        have hlt := h.cTidLt c hc
        have hceq : c.transaction_id = (newTxRow db t).id := eq_of_beq hbeq
        rw [hnid] at hceq
        omega
      have hone : List.filter (fun c => c.transaction_id == (newTxRow db t).id)
          [newContractRow db t] = [newContractRow db t] := by
        have htrue : ((newContractRow db t).transaction_id == (newTxRow db t).id) = true := by
          rw [hcid, hnid]
          exact beq_self_eq_true _
        simp [htrue]
      rw [hnil, hone]
      rfl
  · rw [hctr, List.map_append, List.nodup_append]
    refine ⟨h.addrNodup, List.nodup_singleton _, ?_⟩
    intro a ha hb
    rcases List.mem_map.mp ha with ⟨c, hc, rfl⟩
    have heq : c.address = (newContractRow db t).address := List.mem_singleton.mp (by simpa using hb)
    rw [hcaddr] at heq
    exact anyAddrFalse c hc (heq ▸ beq_self_eq_true _)
  · rw [hctr, List.map_append, List.nodup_append]
    refine ⟨h.tidNodup, List.nodup_singleton _, ?_⟩
    intro a ha hb
    rcases List.mem_map.mp ha with ⟨c, hc, rfl⟩
    have hlt := h.cTidLt c hc
    have heq : c.transaction_id = (newContractRow db t).transaction_id :=
      List.mem_singleton.mp (by simpa using hb)
    rw [hcid] at heq
    omega

lemma inv_preserved (db : DB) (t : Transactions) (h : Inv db) :
    Inv (insert_transaction db t).2 := by
  rcases insert_cases db t with ⟨heq, hne⟩ | ⟨heq, hty, hna, hnt⟩ | heq | heq
  · rw [heq]
    exact inv_dbAfterPlain db t h hne
  · rw [heq]
    exact inv_dbAfterCreate db t h hty hna hnt
  · rw [heq]
    exact h
  · rw [heq]
    exact h

lemma inv_runInserts (ts : List Transactions) :
    ∀ db, Inv db → Inv (runInserts db ts) := by
  induction ts with
  | nil => intro db h; exact h
  | cons t ts ih =>
    intro db h
    exact ih (insert_transaction db t).2 (inv_preserved db t h)

/-- C3: in every reachable committed store, each `CreateToken` transaction has
exactly one contract row referencing it, no contract references a transaction
of another kind, and contract addresses and `transaction_id`s are unique. -/
theorem createToken_contract_invariant (db : DB) (h : Reachable db) :
    (∀ tx ∈ db.transactions, tx.transaction_type = TransactionType.CreateToken →
      (db.contracts.filter (fun c => c.transaction_id == tx.id)).length = 1) ∧
    (∀ c ∈ db.contracts, ∀ tx ∈ db.transactions, tx.id = c.transaction_id →
      tx.transaction_type = TransactionType.CreateToken) ∧
    (db.contracts.map ContractRow.address).Nodup ∧
    (db.contracts.map ContractRow.transaction_id).Nodup := by
  obtain ⟨ts, rfl⟩ := h
  have hinv : Inv (runInserts initialize_db ts) := inv_runInserts ts initialize_db invFresh
  refine ⟨hinv.ctOne, ?_, hinv.addrNodup, hinv.tidNodup⟩
  intro c hc tx htx hid
  obtain ⟨tx', htx', hid', hty'⟩ := hinv.cOrigin c hc
  have : tx = tx' := by
    refine List.inj_on_of_nodup_map hinv.txIdNodup htx htx' ?_
    show tx.id = tx'.id
    rw [hid, hid']
  rw [this]
  exact hty'

/-- Witness for C3 at the store reached by one fresh `CreateToken` insert:
the single committed transaction has exactly one contract row, and addresses
and transaction ids are duplicate-free. -/
theorem createToken_contract_invariant_witness :
    ((runInserts initialize_db
        [⟨0, List.replicate 20 0, TransactionType.CreateToken, [48, 120], 1715136000⟩]).contracts.filter
      (fun c => c.transaction_id == (1 : Int))).length = 1 ∧
    ((runInserts initialize_db
        [⟨0, List.replicate 20 0, TransactionType.CreateToken, [48, 120], 1715136000⟩]).contracts.map
      ContractRow.address).Nodup := by
  have h := createToken_contract_invariant
    (runInserts initialize_db
      [⟨0, List.replicate 20 0, TransactionType.CreateToken, [48, 120], 1715136000⟩])
    ⟨[⟨0, List.replicate 20 0, TransactionType.CreateToken, [48, 120], 1715136000⟩], rfl⟩
  refine ⟨?_, h.2.2.1⟩
  have hmem : (⟨1, List.replicate 20 0, TransactionType.CreateToken, some [48, 120],
      1715136000⟩ : TxRow) ∈ (runInserts initialize_db
        [⟨0, List.replicate 20 0, TransactionType.CreateToken, [48, 120], 1715136000⟩]).transactions := by
    rw [show (runInserts initialize_db
        [⟨0, List.replicate 20 0, TransactionType.CreateToken, [48, 120], 1715136000⟩]).transactions =
      [⟨1, List.replicate 20 0, TransactionType.CreateToken, some [48, 120], 1715136000⟩] from rfl]
    exact List.mem_singleton_self _
  exact h.1 _ hmem rfl

end MintVM

namespace MintVM

lemma encodeAddressList_eq_flatten (addrs : List (List Nat)) :
    encodeAddressList addrs = addrs.flatten := by
  have hgen : ∀ (l : List (List Nat)) (acc : List Nat),
      l.foldl (fun acc a => acc ++ a) acc = acc ++ l.flatten := by
    intro l
    induction l with
    | nil => intro acc; simp
    | cons a rest ih =>
      intro acc
      simp only [List.foldl_cons, List.flatten_cons, ih, List.append_assoc]
  simpa using hgen addrs []

lemma flatten_length_of_uniform (addrs : List (List Nat))
    (h : ∀ a ∈ addrs, a.length = 20) : addrs.flatten.length = 20 * addrs.length := by
  induction addrs with
  | nil => rfl
  | cons a rest ih =>
    have ha : a.length = 20 := h a (List.mem_cons_self a rest)
    have hrest := ih (fun x hx => h x (List.mem_cons_of_mem a hx))
    rw [List.flatten_cons, List.length_append, ha, hrest, List.length_cons]
    ring

lemma chunksExact20_flatten (addrs : List (List Nat))
    (h : ∀ a ∈ addrs, a.length = 20) : chunksExact20 addrs.flatten = addrs := by
  induction addrs with
  | nil => rfl
  | cons a rest ih =>
    have ha : a.length = 20 := h a (List.mem_cons_self a rest)
    have hrest : ∀ x ∈ rest, x.length = 20 := fun x hx => h x (List.mem_cons_of_mem a hx)
    have hlen : (a :: rest).flatten.length = 20 * rest.length + 20 := by
      rw [flatten_length_of_uniform _ h, List.length_cons]
      ring
    unfold chunksExact20
    rw [hlen]
    have hdiv : (20 * rest.length + 20) / 20 = rest.length + 1 := by omega
    rw [hdiv, List.range_succ_eq_map, List.map_cons, List.map_map]
    congr 1
    · rw [Nat.mul_zero, List.drop_zero, List.flatten_cons, List.take_left' ha]
    · have hmap : List.map
          ((fun i => (((a :: rest).flatten).drop (20 * i)).take 20) ∘ Nat.succ)
          (List.range rest.length) =
          List.map (fun i => (rest.flatten.drop (20 * i)).take 20) (List.range rest.length) := by
        refine List.map_congr_left ?_
        intro i _
        show (((a :: rest).flatten).drop (20 * Nat.succ i)).take 20 =
          (rest.flatten.drop (20 * i)).take 20
        rw [List.flatten_cons, show 20 * Nat.succ i = a.length + 20 * i by rw [ha]; omega,
            List.drop_append]
      rw [hmap]
      have hrw : chunksExact20 rest.flatten =
          List.map (fun i => (rest.flatten.drop (20 * i)).take 20) (List.range rest.length) := by
        unfold chunksExact20
        rw [flatten_length_of_uniform rest hrest]
        have hd20 : 20 * rest.length / 20 = rest.length := by omega
        rw [hd20]
      rw [← hrw]
      exact ih hrest

/-- C9: the address-list codec packs a sequence of addresses as the flat
concatenation of their 20-byte encodings; decoding recovers the sequence in
order, succeeds exactly on byte strings whose length is a multiple of 20, and
fails on any other length with the blob-decode error (the spec's
`DecodeError::MisalignedList`). -/
theorem addressList_codec :
    (∀ addrs : List (List Nat), (∀ a ∈ addrs, a.length = 20) →
      decodeAddressList (encodeAddressList addrs) = .ok addrs) ∧
    (∀ bytes : List Nat,
      (bytes.length % 20 = 0 → decodeAddressList bytes = .ok (chunksExact20 bytes)) ∧
      (bytes.length % 20 ≠ 0 → decodeAddressList bytes = .error .invalidType)) := by
  constructor
  · intro addrs h
    rw [encodeAddressList_eq_flatten]
    have hmod : addrs.flatten.length % 20 = 0 := by
      rw [flatten_length_of_uniform addrs h]
      omega
    rw [decodeAddressList, if_neg (by omega), chunksExact20_flatten addrs h]
  · intro bytes
    constructor
    · intro hmod
      rw [decodeAddressList, if_neg (by omega)]
    · intro hmod
      rw [decodeAddressList, if_pos hmod]

/-- Witness for C9: a two-address list round-trips through the codec, and a
3-byte blob is rejected as misaligned. -/
theorem addressList_codec_witness :
    decodeAddressList (encodeAddressList [List.replicate 20 1, List.replicate 20 2]) =
      .ok [List.replicate 20 1, List.replicate 20 2] ∧
    decodeAddressList [1, 2, 3] = .error .invalidType :=
  ⟨addressList_codec.1 [List.replicate 20 1, List.replicate 20 2] (by decide),
   (addressList_codec.2 [1, 2, 3]).2 (by decide)⟩

end MintVM

namespace MintVM

/-! ### Address text codec lemmas (C6) -/

lemma getD_range_map {α : Type} (f : Nat → α) (n i : Nat) (d : α) (h : i < n) :
    ((List.range n).map f).getD i d = f i := by
  rw [List.getD_eq_getElem?_getD, List.getElem?_map, List.getElem?_range h]
  rfl

lemma getD_mem (l : List Nat) (i : Nat) (h : i < l.length) : l.getD i 0 ∈ l := by
  rw [List.getD_eq_getElem?_getD, List.getElem?_eq_getElem h]
  exact List.getElem_mem h

lemma bytesHexLower_length (bs : List Nat) : (bytesHexLower bs).length = 2 * bs.length := by
  induction bs with
  | nil => rfl
  | cons b rest ih =>
    show (byteToHexChars b ++ bytesHexLower rest).length = 2 * (rest.length + 1)
    rw [List.length_append, ih]
    simp [byteToHexChars]
    omega

lemma nibbleAt_cons_add_two (b : Nat) (rest : List Nat) (i : Nat) :
    nibbleAt (b :: rest) (i + 2) = nibbleAt rest i := by
  unfold nibbleAt
  rw [Nat.add_mod_right, Nat.add_div_right i (by omega)]
  simp [List.getD_cons_succ]

lemma bytesHexLower_getD (bs : List Nat) :
    ∀ i, i < 2 * bs.length → (bytesHexLower bs).getD i 0 = hexCharLower (nibbleAt bs i) := by
  induction bs with
  | nil => intro i h; simp at h
  | cons b rest ih =>
    intro i h
    have hshow : bytesHexLower (b :: rest) =
        hexCharLower (b / 16) :: hexCharLower (b % 16) :: bytesHexLower rest := rfl
    rw [hshow]
    match i with
    | 0 => rfl
    | 1 => rfl
    | (j + 2) =>
      rw [List.getD_cons_succ, List.getD_cons_succ, nibbleAt_cons_add_two]
      refine ih j ?_
      simp only [List.length_cons] at h
      omega

lemma hexDigitVal_toggle (n : Nat) (hn : n < 16) (nib : Nat) :
    hexDigitVal (if 97 ≤ hexCharLower n ∧ 8 ≤ nib then hexCharLower n - 32 else hexCharLower n) =
      some n := by
  by_cases h8 : 8 ≤ nib <;> interval_cases n <;> simp [hexCharLower, hexDigitVal, h8]

lemma checksummed_length (addr : List Nat) : (checksummed addr).length = 2 * addr.length := by
  simp [checksummed, bytesHexLower_length]

lemma checksummed_digitVal (addr : List Nat) (hb : ∀ b ∈ addr, b < 256) :
    ∀ i, i < 2 * addr.length →
      hexDigitVal ((checksummed addr).getD i 0) = some (nibbleAt addr i) := by
  intro i h
  have hlow : (bytesHexLower addr).length = 2 * addr.length := bytesHexLower_length addr
  have hget : (checksummed addr).getD i 0 =
      (fun i =>
        if 97 ≤ (bytesHexLower addr).getD i 0 ∧
            8 ≤ (if i % 2 = 0 then (keccak256 (bytesHexLower addr)).getD (i / 2) 0 / 16
                 else (keccak256 (bytesHexLower addr)).getD (i / 2) 0 % 16)
          then (bytesHexLower addr).getD i 0 - 32 else (bytesHexLower addr).getD i 0) i := by
    show ((List.range (bytesHexLower addr).length).map _).getD i 0 = _
    exact getD_range_map _ _ i 0 (by omega)
  rw [hget]
  simp only
  rw [bytesHexLower_getD addr i h]
  have hnib : nibbleAt addr i < 16 := by
    unfold nibbleAt
    split
    · have hmem : addr.getD (i / 2) 0 ∈ addr := getD_mem addr (i / 2) (by omega)
      have := hb _ hmem
      omega
    · omega
  exact hexDigitVal_toggle (nibbleAt addr i) hnib _

lemma hexDigitVal_lt (c v : Nat) (h : hexDigitVal c = some v) : v < 16 := by
  unfold hexDigitVal at h
  split_ifs at h with h1 h2 h3 <;> (injection h with h; omega)

lemma IsHexDigitAscii_of_val (c v : Nat) (h : hexDigitVal c = some v) : IsHexDigitAscii c := by
  unfold hexDigitVal at h
  split_ifs at h with h1 h2 h3
  · exact Or.inl h1
  · exact Or.inr (Or.inl h2)
  · exact Or.inr (Or.inr h3)

lemma hexPairsDecode_of_digitVals :
    ∀ (bytes : List Nat) (chars : List Nat), chars.length = 2 * bytes.length →
      (∀ i, i < chars.length → hexDigitVal (chars.getD i 0) = some (nibbleAt bytes i)) →
      hexPairsDecode chars = some bytes := by
  intro bytes
  induction bytes with
  | nil =>
    intro chars hlen _
    have hnil : chars = [] := by simpa using hlen
    subst hnil
    rfl
  | cons b rest ih =>
    intro chars hlen hvals
    rcases chars with _ | ⟨c1, _ | ⟨c2, cs⟩⟩
    · simp at hlen
    · simp only [List.length_cons, List.length_nil] at hlen
      omega
    · have h0 : hexDigitVal c1 = some (b / 16) := by
        have := hvals 0 (by simp only [List.length_cons]; omega)
        simpa [nibbleAt] using this
      have h1 : hexDigitVal c2 = some (b % 16) := by
        have := hvals 1 (by simp only [List.length_cons]; omega)
        simpa [nibbleAt] using this
      have hrec : hexPairsDecode cs = some rest := by
        refine ih cs ?_ ?_
        · simp only [List.length_cons] at hlen
          omega
        · intro i hi
          have := hvals (i + 2) (by simp only [List.length_cons]; omega)
          rw [List.getD_cons_succ, List.getD_cons_succ] at this
          rwa [nibbleAt_cons_add_two] at this
      have hbyte : 16 * (b / 16) + b % 16 = b := by omega
      simp only [hexPairsDecode, h0, h1, hrec, hbyte]

lemma hexPairsDecode_bytes_lt :
    ∀ (n : Nat) (chars : List Nat), chars.length ≤ n → ∀ bytes, hexPairsDecode chars = some bytes →
      ∀ b ∈ bytes, b < 256 := by
  intro n
  induction n with
  | zero =>
    intro chars hlen bytes h b hb
    have hnil : chars = [] := List.length_eq_zero.mp (by omega)
    subst hnil
    have hbs : bytes = [] := (Option.some.inj h).symm
    subst hbs
    simp at hb
  | succ n ih =>
    intro chars hlen bytes h b hb
    rcases chars with _ | ⟨c1, _ | ⟨c2, cs⟩⟩
    · have hbs : bytes = [] := (Option.some.inj h).symm
      subst hbs
      simp at hb
    · simp [hexPairsDecode] at h
    · rcases h1 : hexDigitVal c1 with _ | v1 <;>
        rcases h2 : hexDigitVal c2 with _ | v2 <;>
        rcases h3 : hexPairsDecode cs with _ | tl <;>
        simp only [hexPairsDecode, h1, h2, h3, reduceCtorEq] at h
      have hbs : bytes = (16 * v1 + v2) :: tl := by
        have := (Option.some.inj h)
        exact this.symm
      subst hbs
      rcases List.mem_cons.mp hb with hbb | hbb
      · have hv1 := hexDigitVal_lt c1 v1 h1
        have hv2 := hexDigitVal_lt c2 v2 h2
        omega
      · refine ih cs ?_ tl h3 b hbb
        simp only [List.length_cons] at hlen
        omega

lemma parseAddress_of_decode (text bytes : List Nat)
    (hdec : hexPairsDecode (strip0x text) = some bytes) :
    parseAddress text = if bytes.length = 20 then some bytes else none := by
  unfold parseAddress
  rw [hdec]

lemma parseAddress_of_decode_none (text : List Nat)
    (hdec : hexPairsDecode (strip0x text) = none) :
    parseAddress text = none := by
  unfold parseAddress
  rw [hdec]

lemma parseAddress_some (text out : List Nat) (h : parseAddress text = some out) :
    out.length = 20 ∧ ∀ b ∈ out, b < 256 := by
  rcases hdec : hexPairsDecode (strip0x text) with _ | bytes
  · rw [parseAddress_of_decode_none text hdec] at h
    cases h
  · rw [parseAddress_of_decode text bytes hdec] at h
    by_cases hlen : bytes.length = 20
    · rw [if_pos hlen] at h
      have hbo : bytes = out := Option.some.inj h
      subst hbo
      exact ⟨hlen, hexPairsDecode_bytes_lt (strip0x text).length _ le_rfl bytes hdec⟩
    · rw [if_neg hlen] at h
      cases h

lemma parse_format_roundtrip (addr : List Nat) (hlen : addr.length = 20)
    (hb : ∀ b ∈ addr, b < 256) : parseAddress (formatAddress addr) = some addr := by
  have hstrip : strip0x (formatAddress addr) = checksummed addr := rfl
  have hdec : hexPairsDecode (checksummed addr) = some addr := by
    have hchars : (checksummed addr).length = 2 * addr.length := checksummed_length addr
    refine hexPairsDecode_of_digitVals addr (checksummed addr) (by omega) ?_
    intro i hi
    refine checksummed_digitVal addr hb i ?_
    omega

  rw [parseAddress_of_decode (formatAddress addr) addr (by rw [hstrip]; exact hdec),
      if_pos hlen]

lemma formatAddress_length (addr : List Nat) :
    (formatAddress addr).length = 2 + 2 * addr.length := by
  show (checksummed addr).length + 1 + 1 = 2 + 2 * addr.length
  rw [checksummed_length]
  omega

lemma formatAddress_hex (addr : List Nat) (hb : ∀ b ∈ addr, b < 256) :
    ∀ c ∈ (formatAddress addr).drop 2, IsHexDigitAscii c := by
  intro c hc
  have hdrop : (formatAddress addr).drop 2 = checksummed addr := rfl
  rw [hdrop] at hc
  obtain ⟨i, hilt, hgt⟩ := List.mem_iff_getElem.mp hc
  have hgd : (checksummed addr).getD i 0 = c := by
    rw [List.getD_eq_getElem?_getD, List.getElem?_eq_getElem hilt, hgt]
    rfl
  have hv := checksummed_digitVal addr hb i (by rw [checksummed_length] at hilt; exact hilt)
  rw [hgd] at hv
  exact IsHexDigitAscii_of_val c _ hv

/-- C6 (amended): `parse (format addr) = addr` for every 20-byte address, and
for every text that parses successfully `format (parse text)` is a
`0x`-prefixed hex string of exactly 40 hex digits — the EIP-55 checksummed
(mixed-case, not lowercase) canonical form — which re-parses to the same
address. -/
theorem address_text_roundtrip :
    (∀ addr : List Nat, addr.length = 20 → (∀ b ∈ addr, b < 256) →
      parseAddress (formatAddress addr) = some addr) ∧
    (∀ text out, parseAddress text = some out →
      (formatAddress out).length = 42 ∧
      (formatAddress out).take 2 = [48, 120] ∧
      (∀ c ∈ (formatAddress out).drop 2, IsHexDigitAscii c) ∧
      parseAddress (formatAddress out) = some out) := by
  constructor
  · exact parse_format_roundtrip
  · intro text out h
    obtain ⟨hlen, hb⟩ := parseAddress_some text out h
    refine ⟨?_, rfl, formatAddress_hex out hb, parse_format_roundtrip out hlen hb⟩
    rw [formatAddress_length, hlen]

/-- Witness for C6's amended claim: a concrete 20-byte address round-trips
through format-then-parse, and the formatted form of a parsed text is 42
characters long. -/
theorem address_text_roundtrip_witness :
    parseAddress (formatAddress (List.replicate 20 171)) = some (List.replicate 20 171) ∧
    (formatAddress (List.replicate 20 0)).length = 42 :=
  ⟨address_text_roundtrip.1 (List.replicate 20 171) (by simp) (by decide),
   (address_text_roundtrip.2 (48 :: 120 :: List.replicate 40 48) (List.replicate 20 0)
      (by decide)).1⟩

set_option maxRecDepth 1000000 in
/-- Counterexample for C6 as stated: the all-lowercase text
`"0xff…f"` (40 `f`s) parses to the all-`0xff` address, but formatting that
address yields `'F'` (ASCII 70, an uppercase letter) as its first hex digit —
`format (parse text)` is the EIP-55 checksummed form, not the canonical
lowercase form the claim requires. -/
theorem format_not_lowercase :
    parseAddress (48 :: 120 :: List.replicate 40 102) = some (List.replicate 20 255) ∧
    (formatAddress (List.replicate 20 255)).getD 2 0 = 70 := by
  constructor
  · decide
  · decide

end MintVM
